import Mathlib

/-!
Verification of the Bloom self-analysis backend core
(`self_analysis/utils.py`, `self_analysis/models.py`, `self_analysis/agents.py`,
`self_analysis/views.py`) against its natural-language specification.

Shallow embedding conventions:
* Django rows become Lean structures; querysets become lists.
* Python `str` values that are only compared for equality stay `String`;
  text that is sliced/stripped/scanned is `List Char`.
* JSON numbers are `ℚ` (Python floats modelled as exact rationals); a JSON
  value on which `float(v)` raises is `none : Option ℚ`.
* `while` loops over parent pointers take a fuel argument; the callers pass
  `catalog.length`, which is enough fuel whenever the catalog is acyclic
  (see `CatalogWF`), matching the source's explicit assumption that the
  question tree is a DAG ("cycle detection is a non-goal of the resolver").
-/

/-! ## Generic list utilities (insertion sort on a total boolean key) -/

/-- Stable insertion of an element into a list sorted by `le`. -/
def orderedInsert (le : α → α → Bool) (a : α) : List α → List α
  | [] => [a]
  | b :: l => if le a b then a :: b :: l else b :: orderedInsert le a l

/-- Insertion sort by a boolean relation.  Django's `order_by` clauses in this
app always sort by a key that is total on distinct rows (ties are broken by
the unique `id`, resp. fall back to database order we do not rely on), so any
correct comparison sort produces the same list; insertion sort is used because
it reduces in the kernel. -/
def sortBy (le : α → α → Bool) : List α → List α
  | [] => []
  | a :: l => orderedInsert le a (sortBy le l)

theorem mem_orderedInsert (le : α → α → Bool) (a x : α) (l : List α) :
    x ∈ orderedInsert le a l ↔ x = a ∨ x ∈ l := by
  induction l with
  | nil => simp [orderedInsert]
  | cons b t ih =>
    by_cases h : le a b = true
    · simp [orderedInsert, h]
    · simp only [orderedInsert, if_neg h, List.mem_cons, ih]
      tauto

theorem mem_sortBy (le : α → α → Bool) (x : α) (l : List α) :
    x ∈ sortBy le l ↔ x ∈ l := by
  induction l with
  | nil => simp [sortBy]
  | cons b t ih => simp [sortBy, mem_orderedInsert, ih]

/-! ## Data model: `Question` (self_analysis/models.py) -/

/-- `Question.QuestionType` (`text` / `mcq` / `checkbox`). -/
inductive QuestionType
  | text
  | mcq
  | checkbox
deriving DecidableEq

/-- A row of the `Question` table.  `parent_id` is the raw foreign-key column
(`None` for roots), `category` is nullable, `order` is the display-order
integer. -/
structure Question where
  id : Nat
  qtext : List Char := []
  qtype : QuestionType := .text
  parent_id : Option Nat := none
  category : Option String := none
  required : Bool := false
  is_active : Bool := true
  order : Nat := 0
deriving DecidableEq

/-! ## Eligibility resolver (self_analysis/utils.py) -/

/-- The sort key of `_all_active_questions` / `Question.Meta.ordering`:
`(order, id)`. -/
def questionLe (a b : Question) : Bool :=
  a.order < b.order || (a.order == b.order && a.id ≤ b.id)

/-- `_all_active_questions()`: all active questions in `(order, id)` order. -/
def _all_active_questions (catalog : List Question) : List Question :=
  sortBy questionLe (catalog.filter fun q => q.is_active)

/-- The dictionary `parent_of = {q.id: q.parent_id for q in qs}` together with
its `.get`: a missing key and a stored `None` both come back as `none`,
exactly as `dict.get` conflates them in the source. -/
def parent_of (qs : List Question) (qid : Nat) : Option Nat :=
  match qs.find? (fun q => q.id == qid) with
  | some q => q.parent_id
  | none => none

/-- Python truthiness of the `Optional[int]` variable `current`:
`None` and `0` are falsy (Django primary keys are positive, so `0` never
occurs in practice; the theorems below assume it away explicitly). -/
def truthy : Option Nat → Bool
  | none => false
  | some 0 => false
  | some (_ + 1) => true

/-- The `while current:` loop body of `_ancestors_answered`, with fuel.
Fuel exhaustion (only reachable on a cyclic catalog, where the Python loop
would not terminate) returns `false`. -/
def ancLoop (po : Nat → Option Nat) (answered : List Nat) :
    Nat → Option Nat → Bool
  | _, none => true
  | _, some 0 => true
  | 0, some (_ + 1) => false
  | fuel + 1, some (c + 1) =>
    if answered.contains (c + 1) then ancLoop po answered fuel (po (c + 1))
    else false

/-- `_ancestors_answered(qid, parent_of, answered_ids)`: walk up the parent
chain using the provided parent map and require every visited ancestor to be
answered. -/
def _ancestors_answered (qid : Nat) (po : Nat → Option Nat)
    (answered : List Nat) (fuel : Nat) : Bool :=
  ancLoop po answered fuel (po qid)

/-- The loop body of `next_question_for_user`: a question is returned iff it
is not gated (`q.parent_id and not _ancestors_answered(...)`) and not yet
answered. -/
def eligiblePred (po : Nat → Option Nat) (answered : List Nat) (fuel : Nat)
    (q : Question) : Bool :=
  !(truthy q.parent_id && !(_ancestors_answered q.id po answered fuel)) &&
    !(answered.contains q.id)

/-- `next_question_for_user(user)`: first eligible active question, in
`(order, id)` order, that the user has not answered.  `answered_ids` is the
set `_answered_ids_for_user` returns: the ids of ALL questions the user has
answered, with no filter on the question's active flag. -/
def next_question_for_user (catalog : List Question) (answered_ids : List Nat) :
    Option Question :=
  let qs := _all_active_questions catalog
  let po := parent_of qs
  qs.find? (eligiblePred po answered_ids catalog.length)

/-! ## Progress snapshot (self_analysis/utils.py) -/

/-- The overall part of `progress_snapshot`. -/
structure OverallProgress where
  answered : Nat
  total : Nat
  percent : Nat
deriving DecidableEq

/-- `_overall_progress(user)`.  `total` counts active questions; `answered`
counts the user's answers whose question is active
(`Answer.objects.filter(user=user, question__is_active=True)`); Python's
`int((answered / total) * 100)` is the rational floor `(answered * 100) / total`
(float rounding ignored), and `0` when `total` is `0`. -/
def _overall_progress (catalog : List Question) (answered_ids : List Nat) :
    OverallProgress :=
  let total := (catalog.filter fun q => q.is_active).length
  let answered :=
    (answered_ids.filter fun i =>
      (catalog.filter fun q => q.is_active).any fun q => q.id == i).length
  { answered := answered
    total := total
    percent := if total = 0 then 0 else answered * 100 / total }

/-! ## Specification-side definitions for the resolver claims -/

/-- Catalog lookup by id (arena representation of the question tree). -/
def findQuestion (catalog : List Question) (qid : Nat) : Option Question :=
  catalog.find? (fun q => q.id == qid)

/-- The ancestor chain of a question, following real `parent_id` pointers up
to a root through the FULL catalog (active or not).  This is the
specification's notion of "every ancestor in the parent chain"; it is defined
independently of the resolver's parent map. -/
def ancestorIds (catalog : List Question) : Nat → Option Nat → List Nat
  | _, none => []
  | 0, some _ => []
  | fuel + 1, some p =>
    p :: ancestorIds catalog fuel ((findQuestion catalog p).bind fun q => q.parent_id)

/-- Catalog well-formedness, as the spec assumes it: distinct primary keys,
positive parent keys, and acyclicity witnessed by a topological rank that is
bounded by the catalog size (such a rank exists exactly when the parent
relation is a DAG). -/
structure CatalogWF (catalog : List Question) (rank : Nat → Nat) : Prop where
  nodup_ids : (catalog.map fun q => q.id).Nodup
  no_zero_parent : ∀ q ∈ catalog, q.parent_id ≠ some 0
  rank_lt : ∀ q ∈ catalog, ∀ p, q.parent_id = some p →
    ∀ qp ∈ catalog, qp.id = p → rank p < rank q.id
  rank_bound : ∀ q ∈ catalog, rank q.id < catalog.length

/-- The extra condition the resolver needs (and the source silently relies
on): the parent of an active question exists in the catalog and is itself
active.  An inactive parent of an active question breaks both C1 and C2. -/
def ActiveClosed (catalog : List Question) : Prop :=
  ∀ q ∈ catalog, q.is_active = true → ∀ p, q.parent_id = some p →
    ∃ qp ∈ catalog, qp.id = p ∧ qp.is_active = true

/-! ## Resolver lemmas -/

theorem perm_orderedInsert (le : α → α → Bool) (a : α) (l : List α) :
    (orderedInsert le a l).Perm (a :: l) := by
  induction l with
  | nil => simp [orderedInsert]
  | cons b t ih =>
    by_cases h : le a b = true
    · simp [orderedInsert, h]
    · rw [orderedInsert, if_neg h]
      exact (ih.cons b).trans (List.Perm.swap a b t)

theorem perm_sortBy (le : α → α → Bool) (l : List α) : (sortBy le l).Perm l := by
  induction l with
  | nil => simp [sortBy]
  | cons b t ih => exact (perm_orderedInsert le b (sortBy le t)).trans (ih.cons b)

theorem nodup_ids_active (catalog : List Question)
    (h : (catalog.map fun q => q.id).Nodup) :
    ((_all_active_questions catalog).map fun q => q.id).Nodup := by
  have hsub : ((catalog.filter fun q => q.is_active).map fun q => q.id).Sublist
      (catalog.map fun q => q.id) :=
    (List.filter_sublist catalog).map _
  have hfil := hsub.nodup h
  have hperm : ((_all_active_questions catalog).map fun q => q.id).Perm
      ((catalog.filter fun q => q.is_active).map fun q => q.id) :=
    (perm_sortBy questionLe _).map _
  exact hperm.nodup_iff.mpr hfil

theorem mem_all_active (catalog : List Question) (q : Question) :
    q ∈ _all_active_questions catalog ↔ q ∈ catalog ∧ q.is_active = true := by
  rw [_all_active_questions, mem_sortBy, List.mem_filter]

/-- Under distinct ids, looking a member question up by its id finds it. -/
theorem find?_id_eq (l : List Question) (hn : (l.map fun q => q.id).Nodup)
    (q : Question) (hq : q ∈ l) :
    l.find? (fun x => x.id == q.id) = some q := by
  have hsome : (l.find? (fun x => x.id == q.id)).isSome = true :=
    List.find?_isSome.mpr ⟨q, hq, by simp⟩
  obtain ⟨x, hx⟩ := Option.isSome_iff_exists.mp hsome
  have hxm : x ∈ l := List.mem_of_find?_eq_some hx
  have hxid : x.id = q.id := by
    have := List.find?_some hx
    simpa using this
  have : x = q := List.inj_on_of_nodup_map hn hxm hq hxid
  rw [hx, this]

theorem findQuestion_eq (catalog : List Question)
    (hn : (catalog.map fun q => q.id).Nodup) (q : Question) (hq : q ∈ catalog) :
    findQuestion catalog q.id = some q :=
  find?_id_eq catalog hn q hq

/-- For an active question (under distinct ids), the resolver's parent map
returns its real parent pointer. -/
theorem parent_of_active (catalog : List Question)
    (hn : (catalog.map fun q => q.id).Nodup) (q : Question)
    (hq : q ∈ catalog) (hact : q.is_active = true) :
    parent_of (_all_active_questions catalog) q.id = q.parent_id := by
  have hmem : q ∈ _all_active_questions catalog :=
    (mem_all_active catalog q).mpr ⟨hq, hact⟩
  rw [parent_of, find?_id_eq _ (nodup_ids_active catalog hn) q hmem]

theorem exists_min_by (f : α → Nat) : ∀ (l : List α), l ≠ [] →
    ∃ m ∈ l, ∀ b ∈ l, f m ≤ f b
  | [], h => absurd rfl h
  | [b], _ => ⟨b, by simp, by simp⟩
  | b :: c :: t, _ => by
    obtain ⟨m, hm, hmin⟩ := exists_min_by f (c :: t) (by simp)
    by_cases hle : f b ≤ f m
    · refine ⟨b, by simp, ?_⟩
      intro x hx
      rcases List.mem_cons.mp hx with rfl | hx
      · exact le_refl _
      · exact le_trans hle (hmin x hx)
    · refine ⟨m, List.mem_cons_of_mem b hm, ?_⟩
      intro x hx
      rcases List.mem_cons.mp hx with rfl | hx
      · omega
      · exact hmin x hx

theorem ancestorIds_none (catalog : List Question) (fuel : Nat) :
    ancestorIds catalog fuel none = [] := by
  cases fuel <;> rfl

/-- Soundness of the gating walk: on a well-formed, active-closed catalog, if
the loop of `_ancestors_answered` accepts a chain starting at the active
question with id `c`, then `c` and every real ancestor of `c` are answered. -/
theorem ancLoop_sound (catalog : List Question) (rank : Nat → Nat)
    (answered : List Nat) (hwf : CatalogWF catalog rank)
    (hac : ActiveClosed catalog) :
    ∀ fuel c qc, qc ∈ catalog → qc.id = c → qc.is_active = true → c ≠ 0 →
      rank c < fuel →
      ancLoop (parent_of (_all_active_questions catalog)) answered fuel
        (some c) = true →
      ∀ fuel2, ∀ a ∈ ancestorIds catalog fuel2 (some c), a ∈ answered := by
  intro fuel
  induction fuel with
  | zero =>
    intro c qc _ _ _ _ hrank
    omega
  | succ fuel ih =>
    intro c qc hqc hid hact hc0 hrank hloop fuel2 a ha
    obtain ⟨c', rfl⟩ : ∃ c', c = c' + 1 := ⟨c - 1, by omega⟩
    rw [ancLoop] at hloop
    by_cases hmem : answered.contains (c' + 1) = true
    · rw [if_pos hmem] at hloop
      have hmem' : (c' + 1) ∈ answered := by
        simpa using hmem
      have hpo : parent_of (_all_active_questions catalog) (c' + 1) =
          qc.parent_id := by
        have := parent_of_active catalog hwf.nodup_ids qc hqc hact
        rwa [hid] at this
      rw [hpo] at hloop
      cases fuel2 with
      | zero => cases ha
      | succ fuel2 =>
        rw [ancestorIds] at ha
        have hfq : findQuestion catalog (c' + 1) = some qc := by
          have := findQuestion_eq catalog hwf.nodup_ids qc hqc
          rwa [hid] at this
        rw [hfq] at ha
        simp only [Option.some_bind] at ha
        rcases List.mem_cons.mp ha with rfl | ha
        · exact hmem'
        · cases hp : qc.parent_id with
          | none =>
            rw [hp, ancestorIds_none] at ha
            cases ha
          | some p =>
            have hp0 : p ≠ 0 := by
              intro h
              exact hwf.no_zero_parent qc hqc (by rw [hp, h])
            obtain ⟨qp, hqp, hqpid, hqpact⟩ := hac qc hqc hact p hp
            have hrankp : rank p < rank (c' + 1) := by
              have := hwf.rank_lt qc hqc p hp qp hqp hqpid
              rwa [hid] at this
            rw [hp] at hloop ha
            exact ih p qp hqp hqpid hqpact hp0 (by omega) hloop fuel2 a ha
    · rw [if_neg hmem] at hloop
      cases hloop

/-- Completeness of the gating walk: starting from an active question of rank
below `R`, if every active question of rank below `R` is answered, the loop
accepts (it never runs out of fuel thanks to the rank bound). -/
theorem ancLoop_complete (catalog : List Question) (rank : Nat → Nat)
    (answered : List Nat) (R : Nat) (hwf : CatalogWF catalog rank)
    (hac : ActiveClosed catalog)
    (hbelow : ∀ x ∈ catalog, x.is_active = true → rank x.id < R →
      x.id ∈ answered) :
    ∀ fuel c qc, qc ∈ catalog → qc.id = c → qc.is_active = true → c ≠ 0 →
      rank c < fuel → rank c < R →
      ancLoop (parent_of (_all_active_questions catalog)) answered fuel
        (some c) = true := by
  intro fuel
  induction fuel with
  | zero =>
    intro c qc _ _ _ _ hrank
    omega
  | succ fuel ih =>
    intro c qc hqc hid hact hc0 hrank hR
    obtain ⟨c', rfl⟩ : ∃ c', c = c' + 1 := ⟨c - 1, by omega⟩
    have hmem : (c' + 1) ∈ answered := by
      have := hbelow qc hqc hact (by rw [hid]; exact hR)
      rwa [hid] at this
    rw [ancLoop, if_pos (by simpa using hmem)]
    have hpo : parent_of (_all_active_questions catalog) (c' + 1) =
        qc.parent_id := by
      have := parent_of_active catalog hwf.nodup_ids qc hqc hact
      rwa [hid] at this
    rw [hpo]
    cases hp : qc.parent_id with
    | none => rw [ancLoop]
    | some p =>
      cases p with
      | zero => rw [ancLoop]
      | succ p' =>
        obtain ⟨qp, hqp, hqpid, hqpact⟩ := hac qc hqc hact (p' + 1) hp
        have hrankp : rank (p' + 1) < rank (c' + 1) := by
          have := hwf.rank_lt qc hqc (p' + 1) hp qp hqp hqpid
          rwa [hid] at this
        exact ih (p' + 1) qp hqp hqpid hqpact (by omega) (by omega) (by omega)

/-! ## Claims C1 and C2 -/

/-- Claim C1 as stated is FALSE on the code: `next_question_for_user` can
return a question having an unanswered ancestor, because the gating walk uses
the parent map of ACTIVE questions only and therefore stops at the first
inactive ancestor.  Catalog: Q1 (root, inactive) ← Q2 (inactive) ← Q3
(active); the user answered only Q2.  The resolver returns Q3 although its
ancestor Q1 is not answered. -/
def cexInactiveRoot : Question :=
  { id := 1, is_active := false, order := 0 }

def cexInactiveMid : Question :=
  { id := 2, parent_id := some 1, is_active := false, order := 1 }

def cexActiveLeaf : Question :=
  { id := 3, parent_id := some 2, is_active := true, order := 2 }

def cexCatalog : List Question :=
  [cexInactiveRoot, cexInactiveMid, cexActiveLeaf]

/-- Claim C1, counterexample: the returned question `Q3` has ancestor chain
`[2, 1]` but ancestor `1` is not in the answered set `[2]`. -/
theorem C1_counterexample :
    next_question_for_user cexCatalog [2] = some cexActiveLeaf ∧
    cexActiveLeaf.parent_id = some 2 ∧
    ancestorIds cexCatalog cexCatalog.length cexActiveLeaf.parent_id = [2, 1] ∧
    (1 : Nat) ∉ ([2] : List Nat) := by
  decide

/-- Claim C1 (amended): on a well-formed catalog (distinct ids, positive ids,
acyclic) in which the parent of every active question is present and itself
active, whenever `next_question_for_user` returns a question `q`, every
ancestor of `q` (following real parent pointers up to a root) is in the
user's answered set. -/
theorem C1_next_question_parent_chain_answered
    (catalog : List Question) (answered : List Nat) (rank : Nat → Nat)
    (hwf : CatalogWF catalog rank) (hac : ActiveClosed catalog)
    (q : Question) (hq : next_question_for_user catalog answered = some q) :
    ∀ a ∈ ancestorIds catalog catalog.length q.parent_id, a ∈ answered := by
  intro a ha
  simp only [next_question_for_user] at hq
  have hqmem : q ∈ _all_active_questions catalog := List.mem_of_find?_eq_some hq
  have hpred := List.find?_some hq
  obtain ⟨hqcat, hqact⟩ := (mem_all_active catalog q).mp hqmem
  rw [eligiblePred] at hpred
  simp only [Bool.and_eq_true] at hpred
  have h1 := hpred.1
  cases hp : q.parent_id with
  | none =>
    rw [hp, ancestorIds_none] at ha
    cases ha
  | some p =>
    cases p with
    | zero => exact absurd hp (hwf.no_zero_parent q hqcat)
    | succ p' =>
      rw [hp] at h1
      simp only [truthy, Bool.true_and, Bool.not_not] at h1
      have hanc : ancLoop (parent_of (_all_active_questions catalog)) answered
          catalog.length (some (p' + 1)) = true := by
        rw [_ancestors_answered,
          parent_of_active catalog hwf.nodup_ids q hqcat hqact, hp] at h1
        exact h1
      obtain ⟨qp, hqp, hqpid, hqpact⟩ := hac q hqcat hqact (p' + 1) hp
      have hrankp : rank (p' + 1) < rank q.id :=
        hwf.rank_lt q hqcat (p' + 1) hp qp hqp hqpid
      have hbound : rank q.id < catalog.length := hwf.rank_bound q hqcat
      rw [hp] at ha
      exact ancLoop_sound catalog rank answered hwf hac catalog.length
        (p' + 1) qp hqp hqpid hqpact (by omega) (by omega) hanc
        catalog.length a ha

/-- Claim C2 as stated is FALSE on the code: with an inactive unanswered
parent of an active question, `next_question_for_user` returns `none` even
though the active child is unanswered (the child is gated forever). -/
def cex2Root : Question :=
  { id := 1, is_active := false, order := 0 }

def cex2Child : Question :=
  { id := 2, parent_id := some 1, is_active := true, order := 1 }

def cex2Catalog : List Question :=
  [cex2Root, cex2Child]

theorem C2_counterexample :
    next_question_for_user cex2Catalog [] = none ∧
    cex2Child ∈ cex2Catalog ∧ cex2Child.is_active = true ∧
    cex2Child.id ∉ ([] : List Nat) := by
  decide

/-- Claim C2 (amended): on a well-formed, active-closed catalog,
`next_question_for_user` returns `none` iff every active question is
answered by the user. -/
theorem C2_next_question_none_iff
    (catalog : List Question) (answered : List Nat) (rank : Nat → Nat)
    (hwf : CatalogWF catalog rank) (hac : ActiveClosed catalog) :
    next_question_for_user catalog answered = none ↔
      ∀ q ∈ catalog, q.is_active = true → q.id ∈ answered := by
  constructor
  · intro hnone
    by_contra hex
    push_neg at hex
    obtain ⟨q, hqcat, hqact, hqun⟩ := hex
    have hqS : q ∈ catalog.filter
        (fun x => x.is_active && !(answered.contains x.id)) := by
      rw [List.mem_filter]
      refine ⟨hqcat, ?_⟩
      have : answered.contains q.id = false := by
        simpa using hqun
      rw [hqact, this]
      rfl
    obtain ⟨m, hmS, hmin⟩ := exists_min_by (fun x => rank x.id) _
      (List.ne_nil_of_mem hqS)
    have hmcat : m ∈ catalog := (List.mem_filter.mp hmS).1
    have hm2 := (List.mem_filter.mp hmS).2
    simp only [Bool.and_eq_true] at hm2
    have hmact : m.is_active = true := hm2.1
    have hmun : answered.contains m.id = false := by
      simpa using hm2.2
    have hbelow : ∀ x ∈ catalog, x.is_active = true →
        rank x.id < rank m.id → x.id ∈ answered := by
      intro x hx hxact hxrank
      by_contra hxa
      have hxS : x ∈ catalog.filter
          (fun x => x.is_active && !(answered.contains x.id)) := by
        rw [List.mem_filter]
        refine ⟨hx, ?_⟩
        have : answered.contains x.id = false := by
          simpa using hxa
        rw [hxact, this]
        rfl
      exact absurd hxrank (not_lt.mpr (hmin x hxS))
    have hmmem : m ∈ _all_active_questions catalog :=
      (mem_all_active catalog m).mpr ⟨hmcat, hmact⟩
    have hpred : eligiblePred (parent_of (_all_active_questions catalog))
        answered catalog.length m = true := by
      rw [eligiblePred, Bool.and_eq_true]
      refine ⟨?_, by rw [hmun]; rfl⟩
      cases hp : m.parent_id with
      | none => rfl
      | some p =>
        cases p with
        | zero => exact absurd hp (hwf.no_zero_parent m hmcat)
        | succ p' =>
          have hanc : _ancestors_answered m.id
              (parent_of (_all_active_questions catalog)) answered
              catalog.length = true := by
            rw [_ancestors_answered,
              parent_of_active catalog hwf.nodup_ids m hmcat hmact, hp]
            obtain ⟨qp, hqp, hqpid, hqpact⟩ := hac m hmcat hmact (p' + 1) hp
            have hrankp : rank (p' + 1) < rank m.id :=
              hwf.rank_lt m hmcat (p' + 1) hp qp hqp hqpid
            have hbound : rank m.id < catalog.length := hwf.rank_bound m hmcat
            exact ancLoop_complete catalog rank answered (rank m.id) hwf hac
              hbelow catalog.length (p' + 1) qp hqp hqpid hqpact (by omega)
              (by omega) (by omega)
          rw [hanc]
          rfl
    have hfind := List.find?_eq_none.mp
      (by simpa only [next_question_for_user] using hnone) m hmmem
    exact absurd hpred hfind
  · intro hall
    simp only [next_question_for_user]
    apply List.find?_eq_none.mpr
    intro x hx
    obtain ⟨hxcat, hxact⟩ := (mem_all_active catalog x).mp hx
    have hxa : answered.contains x.id = true := by
      simpa using hall x hxcat hxact
    intro hpredx
    rw [eligiblePred] at hpredx
    simp only [Bool.and_eq_true] at hpredx
    rw [hxa] at hpredx
    exact absurd hpredx.2 (by decide)

/-! Witness catalog for C1/C2: a root with one active child. -/

def wfRoot : Question :=
  { id := 1, order := 0 }

def wfChild : Question :=
  { id := 2, parent_id := some 1, order := 1 }

def wfCatalog : List Question :=
  [wfRoot, wfChild]

def wfRank (n : Nat) : Nat := n - 1

theorem wfCatalog_wf : CatalogWF wfCatalog wfRank := by
  refine ⟨by decide, by decide, ?_, by decide⟩
  intro q hq p hp qp hqp hqpid
  fin_cases hq <;> fin_cases hqp <;>
    simp_all [wfRoot, wfChild, wfRank] <;> omega

theorem wfCatalog_closed : ActiveClosed wfCatalog := by
  intro q hq hact p hp
  fin_cases hq
  · cases hp
  · refine ⟨wfRoot, by simp [wfCatalog], ?_, rfl⟩
    have : p = 1 := by
      have : wfChild.parent_id = some p := hp
      simpa [wfChild] using this.symm
    simp [wfRoot, this]

theorem C1_witness :
    next_question_for_user wfCatalog [1] = some wfChild ∧ (1 : Nat) ∈ [1] :=
  ⟨by decide,
    C1_next_question_parent_chain_answered wfCatalog [1] wfRank wfCatalog_wf
      wfCatalog_closed wfChild (by decide) 1 (by decide)⟩

theorem C2_witness : next_question_for_user wfCatalog [1, 2] = none :=
  (C2_next_question_none_iff wfCatalog [1, 2] wfRank wfCatalog_wf
    wfCatalog_closed).mpr (by decide)

/-! ## Claim C10: answers to inactive questions count for eligibility,
not for progress -/

/-- Claim C10: with catalog Q1 (inactive) ← Q2 (active child) and a user
whose only answer is to the inactive Q1: without that answer Q2 is gated
(`next` = none), with it the answered set — which is built with no filter on
the question's active flag — both marks Q1 answered and satisfies Q2's
ancestor chain (`next` = Q2), while `_overall_progress` counts only answers
to active questions and reports `answered = 0`. -/
theorem C10_inactive_answer_eligibility_vs_progress :
    next_question_for_user cex2Catalog [] = none ∧
    next_question_for_user cex2Catalog [1] = some cex2Child ∧
    (_overall_progress cex2Catalog [1]).answered = 0 ∧
    (_overall_progress cex2Catalog [1]).total = 1 := by
  decide

/-! ## Claim C6: overall progress percent -/

/-- Claim C6: `_overall_progress` returns
`percent = floor(answered / total * 100)` (exact rational arithmetic), the
percent never exceeds 100 (given the database uniqueness fact that a user has
at most one answer per question, i.e. the answered ids are distinct), and a
total of 0 yields 0 rather than a division error. -/
theorem C6_overall_progress_percent
    (catalog : List Question) (answered_ids : List Nat)
    (hans : answered_ids.Nodup) :
    (_overall_progress catalog answered_ids).percent =
      ⌊((_overall_progress catalog answered_ids).answered : ℚ) * 100 /
        ((_overall_progress catalog answered_ids).total : ℚ)⌋₊ ∧
    (_overall_progress catalog answered_ids).percent ≤ 100 ∧
    ((_overall_progress catalog answered_ids).total = 0 →
      (_overall_progress catalog answered_ids).percent = 0) := by
  have htot : (_overall_progress catalog answered_ids).total =
      (catalog.filter fun q => q.is_active).length := rfl
  have hansw : (_overall_progress catalog answered_ids).answered =
      (answered_ids.filter fun i =>
        (catalog.filter fun q => q.is_active).any fun q => q.id == i).length :=
    rfl
  have hper : (_overall_progress catalog answered_ids).percent =
      if (catalog.filter fun q => q.is_active).length = 0 then 0
      else (answered_ids.filter fun i =>
        (catalog.filter fun q => q.is_active).any fun q => q.id == i).length
        * 100 / (catalog.filter fun q => q.is_active).length := rfl
  have hAT : (answered_ids.filter fun i =>
      (catalog.filter fun q => q.is_active).any fun q => q.id == i).length ≤
      (catalog.filter fun q => q.is_active).length := by
    have hnodupf : (answered_ids.filter fun i =>
        (catalog.filter fun q => q.is_active).any fun q => q.id == i).Nodup :=
      hans.filter _
    have hsub : (answered_ids.filter fun i =>
        (catalog.filter fun q => q.is_active).any fun q => q.id == i) ⊆
        (catalog.filter fun q => q.is_active).map fun q => q.id := by
      intro i hi
      have h2 := (List.mem_filter.mp hi).2
      rw [List.any_eq_true] at h2
      obtain ⟨qq, hqq, hqqid⟩ := h2
      rw [List.mem_map]
      exact ⟨qq, hqq, by simpa using hqqid⟩
    have := (List.subperm_of_subset hnodupf hsub).length_le
    simpa using this
  refine ⟨?_, ?_, ?_⟩
  · rw [hper, hansw, htot]
    by_cases h0 : (catalog.filter fun q => q.is_active).length = 0
    · rw [if_pos h0, h0]
      norm_num
    · rw [if_neg h0]
      have hc : ((answered_ids.filter fun i =>
          (catalog.filter fun q => q.is_active).any fun q => q.id == i).length
          : ℚ) * 100 =
          (((answered_ids.filter fun i =>
          (catalog.filter fun q => q.is_active).any fun q => q.id == i).length
          * 100 : ℕ) : ℚ) := by
        push_cast
        ring_nf
      rw [hc, Nat.floor_div_nat, Nat.floor_natCast]
  · rw [hper]
    by_cases h0 : (catalog.filter fun q => q.is_active).length = 0
    · rw [if_pos h0]
      omega
    · rw [if_neg h0]
      calc (answered_ids.filter fun i =>
            (catalog.filter fun q => q.is_active).any fun q => q.id == i).length
            * 100 / (catalog.filter fun q => q.is_active).length ≤
          (catalog.filter fun q => q.is_active).length * 100 /
            (catalog.filter fun q => q.is_active).length :=
            Nat.div_le_div_right (by omega)
        _ = 100 := Nat.mul_div_cancel_left 100 (by omega)
  · intro h0
    rw [htot] at h0
    rw [hper, if_pos h0]

theorem C6_witness :
    (_overall_progress wfCatalog [1]).percent = 50 ∧
    (_overall_progress wfCatalog [1]).percent ≤ 100 :=
  ⟨by decide, (C6_overall_progress_percent wfCatalog [1] (by decide)).2.1⟩

/-! ## Aggregator (self_analysis/models.py, `SelfAnalysis.recalc_from_answers`) -/

/-- Python's `round` (banker's rounding, round-half-to-even) on an exact
rational. -/
def roundHalfToEven (x : ℚ) : ℤ :=
  if x - ⌊x⌋ < 1 / 2 then ⌊x⌋
  else if 1 / 2 < x - ⌊x⌋ then ⌊x⌋ + 1
  else if ⌊x⌋ % 2 = 0 then ⌊x⌋ else ⌊x⌋ + 1

/-- Python's `round(x, 2)` on an exact rational. -/
def round2 (x : ℚ) : ℚ :=
  (roundHalfToEven (x * 100) : ℚ) / 100

/-- A row of the `Answer` table (the parts the aggregator and pipeline read).
Trait maps are insertion-ordered JSON objects: association lists from trait
name to a JSON value; `some v` is a value `float(v)` accepts, `none` one on
which it raises.  `created_at` orders the default queryset
(`Meta.ordering = ["-created_at"]`). -/
structure Answer where
  question_id : Nat := 0
  answer_text : List Char := []
  positive_values : List (String × Option ℚ) := []
  negative_values : List (String × Option ℚ) := []
  quote : List Char := []
  created_at : Nat := 0
deriving DecidableEq

/-- One `sums[k] += fv; counts[k] += 1` pair of defaultdict updates: the
accumulator is the insertion-ordered list of `(key, sum, count)` entries. -/
def bump (acc : List (String × ℚ × Nat)) (k : String) (v : ℚ) :
    List (String × ℚ × Nat) :=
  match acc with
  | [] => [(k, v, 1)]
  | e :: rest =>
    if e.1 = k then (e.1, e.2.1 + v, e.2.2 + 1) :: rest
    else e :: bump rest k v

/-- The `for k, v in (... or {}).items()` loop over one answer's trait map:
values on which `float` raises are skipped (`continue`). -/
def addMap (acc : List (String × ℚ × Nat)) (kvs : List (String × Option ℚ)) :
    List (String × ℚ × Nat) :=
  kvs.foldl (fun a kv =>
    match kv.2 with
    | none => a
    | some v => bump a kv.1 v) acc

/-- One iteration of the `for a in answers:` loop: positive map, negative
map, then `if a.quote: latest_quote = a.quote` (non-empty is truthy). -/
def recalcStep
    (st : List (String × ℚ × Nat) × List (String × ℚ × Nat) × List Char)
    (a : Answer) :
    List (String × ℚ × Nat) × List (String × ℚ × Nat) × List Char :=
  (addMap st.1 a.positive_values,
   addMap st.2.1 a.negative_values,
   if a.quote.isEmpty then st.2.2 else a.quote)

/-- The `SelfAnalysis` row: combined trait maps and the aggregate quote. -/
structure SelfAnalysis where
  combined_positives : List (String × ℚ) := []
  combined_negatives : List (String × ℚ) := []
  quote : List Char := []
deriving DecidableEq

/-- The final dict comprehension
`{k: round(sums[k]/counts[k], 2) for k in sums.keys() if counts[k] > 0}`. -/
def finalizeStats (acc : List (String × ℚ × Nat)) : List (String × ℚ) :=
  acc.filterMap fun e =>
    if 0 < e.2.2 then some (e.1, round2 (e.2.1 / (e.2.2 : ℚ))) else none

/-- `SelfAnalysis.recalc_from_answers`, as a function of the iterated answer
list (the order the queryset yields them in).  The previous state is ignored:
every persisted field is overwritten. -/
def recalc_from_answers (answers : List Answer) (_sa : SelfAnalysis) :
    SelfAnalysis :=
  let st := answers.foldl recalcStep ([], [], [])
  { combined_positives := finalizeStats st.1
    combined_negatives := finalizeStats st.2.1
    quote := st.2.2 }

/-- `Answer.Meta.ordering = ["-created_at"]`: the default queryset
`self.user.answers.all()` iterates answers newest-created first. -/
def byCreatedDesc (a b : Answer) : Bool :=
  b.created_at ≤ a.created_at

/-- `recalc_from_answers` as invoked on the stored rows: the related-manager
queryset applies the model's default ordering before the loop runs. -/
def recalc_for_user (stored : List Answer) (sa : SelfAnalysis) : SelfAnalysis :=
  recalc_from_answers (sortBy byCreatedDesc stored) sa

/-! Specification-side definitions for the aggregator claims. -/

/-- The values a key `k` receives across the iterated answers, in iteration
order: one value per answer whose map contains `k` with a float-coercible
value. -/
def traitValues (k : String) (proj : Answer → List (String × Option ℚ))
    (answers : List Answer) : List ℚ :=
  answers.filterMap fun a =>
    match (proj a).lookup k with
    | some (some v) => some v
    | _ => none

/-! ## Claim C9: idempotence of the aggregator -/

/-- Claim C9: `recalc_from_answers` is idempotent — with the same stored
answers (no intervening change), running the recalculation on the result of a
previous recalculation yields the identical `SelfAnalysis` row (same maps in
the same key order, same quote): the method overwrites every persisted field
from the answers alone and reads none of the previous aggregate. -/
theorem C9_recalc_idempotent (stored : List Answer) (sa : SelfAnalysis) :
    recalc_for_user stored (recalc_for_user stored sa) =
      recalc_for_user stored sa := rfl

/-! ## Claim C5: the aggregate quote -/

def quoteOlder : Answer :=
  { question_id := 1, quote := "A".toList, created_at := 1 }

def quoteNewer : Answer :=
  { question_id := 2, quote := "B".toList, created_at := 2 }

/-- Claim C5 is the documented intent (`models.py`: "keep most recent
non-empty from Answers") but the code does the opposite: the default queryset
iterates answers newest-created first (`Meta.ordering = ["-created_at"]`) and
the loop keeps the LAST non-empty quote seen, i.e. the OLDEST one.  With an
older answer quoting "A" and a newer answer quoting "B", the aggregate quote
comes out "A", not the most recent "B". -/
theorem C5_code_bug_quote_oldest_wins :
    (recalc_for_user [quoteOlder, quoteNewer] {}).quote = "A".toList ∧
    quoteOlder.created_at < quoteNewer.created_at ∧
    quoteNewer.quote = "B".toList ∧
    "A".toList ≠ "B".toList := by
  decide

/-! ## Lemmas for Claim C3 (the aggregator mean) -/

theorem lookup_cons_eq {β : Type} (e : String × β) (rest : List (String × β))
    (k : String) :
    ((e :: rest).lookup k) = if k = e.1 then some e.2 else rest.lookup k := by
  rw [List.lookup]
  by_cases h : k = e.1
  · rw [if_pos h, show (k == e.1) = true by simp [h]]
  · rw [if_neg h, show (k == e.1) = false by simp [h]]

theorem lookup_bump (acc : List (String × ℚ × Nat)) (k k' : String) (v : ℚ) :
    (bump acc k v).lookup k' =
      if k' = k then
        match acc.lookup k with
        | none => some (v, 1)
        | some (s, c) => some (s + v, c + 1)
      else acc.lookup k' := by
  induction acc with
  | nil =>
    simp only [bump, lookup_cons_eq, List.lookup_nil]
  | cons e rest ih =>
    by_cases hek : e.1 = k
    · rw [bump, if_pos hek]
      simp only [lookup_cons_eq, hek]
      by_cases h : k' = k <;> simp [h]
    · rw [bump, if_neg hek]
      simp only [lookup_cons_eq, ih]
      have hek2 : ¬ k = e.1 := fun hc => hek hc.symm
      by_cases h1 : k' = e.1
      · have h2 : ¬ k' = k := by
          rw [h1]
          exact hek
        simp [h1, h2, hek, hek2]
      · by_cases h3 : k' = k <;> simp [h1, h3, hek, hek2]

theorem mem_of_lookup {β : Type} (l : List (String × β)) (k : String) (b : β)
    (h : l.lookup k = some b) : (k, b) ∈ l := by
  induction l with
  | nil => cases h
  | cons e rest ih =>
    rw [lookup_cons_eq] at h
    by_cases hke : k = e.1
    · rw [if_pos hke] at h
      injection h with hb
      have he : (k, b) = e := by
        rw [hke, ← hb]
      rw [he]
      exact List.mem_cons_self e rest
    · rw [if_neg hke] at h
      exact List.mem_cons_of_mem e (ih h)

theorem lookup_isSome_of_mem_keys {β : Type} (l : List (String × β))
    (k : String) (hk : k ∈ l.map Prod.fst) : ∃ b, l.lookup k = some b := by
  induction l with
  | nil => cases hk
  | cons e rest ih =>
    rw [lookup_cons_eq]
    by_cases hke : k = e.1
    · rw [if_pos hke]
      exact ⟨e.2, rfl⟩
    · rw [if_neg hke]
      apply ih
      rcases List.mem_map.mp hk with ⟨p, hp, hpk⟩
      rcases List.mem_cons.mp hp with rfl | hp2
      · exact absurd hpk.symm hke
      · exact List.mem_map.mpr ⟨p, hp2, hpk⟩

theorem lookup_addMap_not_mem (kvs : List (String × Option ℚ))
    (acc : List (String × ℚ × Nat)) (k : String)
    (hk : k ∉ kvs.map Prod.fst) :
    (addMap acc kvs).lookup k = acc.lookup k := by
  induction kvs generalizing acc with
  | nil => rfl
  | cons kv rest ih =>
    have hk1 : ¬ k = kv.1 := by
      intro hc
      exact hk (List.mem_map.mpr ⟨kv, List.mem_cons_self kv rest, hc.symm⟩)
    have hk2 : k ∉ rest.map Prod.fst := by
      intro hc
      rcases List.mem_map.mp hc with ⟨p, hp, hpk⟩
      exact hk (List.mem_map.mpr ⟨p, List.mem_cons_of_mem kv hp, hpk⟩)
    cases hv : kv.2 with
    | none =>
      rw [addMap, List.foldl_cons, hv]
      exact ih acc hk2
    | some v =>
      rw [addMap, List.foldl_cons, hv]
      have := ih (bump acc kv.1 v) hk2
      rw [addMap] at this
      rw [this, lookup_bump, if_neg hk1]

theorem lookup_addMap (kvs : List (String × Option ℚ))
    (acc : List (String × ℚ × Nat)) (k : String)
    (hnd : (kvs.map Prod.fst).Nodup) (hco : ∀ kv ∈ kvs, kv.2 ≠ none) :
    (addMap acc kvs).lookup k =
      match kvs.lookup k with
      | some (some v) =>
        match acc.lookup k with
        | none => some (v, 1)
        | some (s, c) => some (s + v, c + 1)
      | _ => acc.lookup k := by
  induction kvs generalizing acc with
  | nil => rfl
  | cons kv rest ih =>
    obtain ⟨v, hv⟩ : ∃ v, kv.2 = some v := by
      cases hv : kv.2 with
      | none => exact absurd hv (hco kv (List.mem_cons_self kv rest))
      | some v => exact ⟨v, rfl⟩
    rw [addMap, List.foldl_cons, hv]
    have hnd2 : (rest.map Prod.fst).Nodup := hnd.of_cons
    have hco2 : ∀ kv2 ∈ rest, kv2.2 ≠ none :=
      fun kv2 h2 => hco kv2 (List.mem_cons_of_mem kv h2)
    have hmain := ih (bump acc kv.1 v) hnd2 hco2
    rw [addMap] at hmain
    rw [hmain, lookup_cons_eq]
    by_cases hk1 : k = kv.1
    · have hknotin : k ∉ rest.map Prod.fst := by
        rw [hk1]
        exact (List.nodup_cons.mp hnd).1
      have hrest : rest.lookup k = none := by
        cases hr : rest.lookup k with
        | none => rfl
        | some b =>
          exact absurd (List.mem_map.mpr ⟨(k, b), mem_of_lookup rest k b hr,
            rfl⟩) hknotin
      rw [if_pos hk1, hrest, hv, lookup_bump, if_pos hk1, hk1]
    · rw [if_neg hk1, lookup_bump, if_neg hk1]

/-- How a per-key `(sum, count)` pair evolves over a list of contributed
values (the specification-side counterpart of `bump`). -/
def combineStat : Option (ℚ × Nat) → List ℚ → Option (ℚ × Nat)
  | st, [] => st
  | none, v :: vs => combineStat (some (v, 1)) vs
  | some (s, c), v :: vs => combineStat (some (s + v, c + 1)) vs

theorem combineStat_some (vs : List ℚ) :
    ∀ s c, combineStat (some (s, c)) vs = some (s + vs.sum, c + vs.length) := by
  induction vs with
  | nil =>
    intro s c
    simp [combineStat]
  | cons v vs ih =>
    intro s c
    rw [combineStat, ih, List.sum_cons, List.length_cons]
    simp only [Option.some.injEq, Prod.mk.injEq]
    constructor
    · ring_nf
    · omega

theorem combineStat_none (vs : List ℚ) (h : vs ≠ []) :
    combineStat none vs = some (vs.sum, vs.length) := by
  cases vs with
  | nil => exact absurd rfl h
  | cons v vs =>
    rw [combineStat, combineStat_some, List.sum_cons, List.length_cons]
    simp only [Option.some.injEq, Prod.mk.injEq]
    constructor
    · ring_nf
    · omega

theorem counts_pos_bump (acc : List (String × ℚ × Nat)) (k : String) (v : ℚ)
    (h : ∀ e ∈ acc, 0 < e.2.2) : ∀ e ∈ bump acc k v, 0 < e.2.2 := by
  induction acc with
  | nil =>
    intro e he
    rcases List.mem_cons.mp he with rfl | h2
    · exact Nat.one_pos
    · cases h2
  | cons e0 rest ih =>
    by_cases he0 : e0.1 = k
    · rw [bump, if_pos he0]
      intro e he
      rcases List.mem_cons.mp he with rfl | h2
      · exact Nat.succ_pos _
      · exact h e (List.mem_cons_of_mem e0 h2)
    · rw [bump, if_neg he0]
      intro e he
      rcases List.mem_cons.mp he with rfl | h2
      · exact h e (List.mem_cons_self e rest)
      · exact ih (fun e2 h3 => h e2 (List.mem_cons_of_mem e0 h3)) e h2

theorem counts_pos_addMap (kvs : List (String × Option ℚ))
    (acc : List (String × ℚ × Nat)) (h : ∀ e ∈ acc, 0 < e.2.2) :
    ∀ e ∈ addMap acc kvs, 0 < e.2.2 := by
  induction kvs generalizing acc with
  | nil => exact h
  | cons kv rest ih =>
    cases hv : kv.2 with
    | none =>
      rw [addMap, List.foldl_cons, hv]
      exact ih acc h
    | some v =>
      rw [addMap, List.foldl_cons, hv]
      exact ih (bump acc kv.1 v) (counts_pos_bump acc kv.1 v h)

theorem lookup_finalize (acc : List (String × ℚ × Nat)) (k : String)
    (hpos : ∀ e ∈ acc, 0 < e.2.2) :
    (finalizeStats acc).lookup k =
      (acc.lookup k).map fun sc => round2 (sc.1 / (sc.2 : ℚ)) := by
  induction acc with
  | nil => rfl
  | cons e rest ih =>
    have he : 0 < e.2.2 := hpos e (List.mem_cons_self e rest)
    rw [finalizeStats, List.filterMap_cons, if_pos he]
    have ihr := ih fun e2 h2 => hpos e2 (List.mem_cons_of_mem e h2)
    rw [finalizeStats] at ihr
    rw [lookup_cons_eq, lookup_cons_eq]
    by_cases hk : k = e.1
    · rw [if_pos hk, if_pos hk]
      rfl
    · rw [if_neg hk, if_neg hk, ihr]

theorem foldl_recalcStep_fst (answers : List Answer) :
    ∀ accP accN q, (answers.foldl recalcStep (accP, accN, q)).1 =
      answers.foldl (fun ac a => addMap ac a.positive_values) accP := by
  induction answers with
  | nil => intro accP accN q; rfl
  | cons a rest ih =>
    intro accP accN q
    rw [List.foldl_cons, List.foldl_cons, recalcStep]
    exact ih _ _ _

theorem foldl_recalcStep_snd (answers : List Answer) :
    ∀ accP accN q, (answers.foldl recalcStep (accP, accN, q)).2.1 =
      answers.foldl (fun ac a => addMap ac a.negative_values) accN := by
  induction answers with
  | nil => intro accP accN q; rfl
  | cons a rest ih =>
    intro accP accN q
    rw [List.foldl_cons, List.foldl_cons, recalcStep]
    exact ih _ _ _

theorem combineStat_nil (st : Option (ℚ × Nat)) : combineStat st [] = st := by
  rcases st with _ | ⟨s, c⟩ <;> rfl

theorem lookup_statsFold (proj : Answer → List (String × Option ℚ))
    (answers : List Answer) :
    ∀ acc k, (∀ a ∈ answers, ((proj a).map Prod.fst).Nodup) →
      (∀ a ∈ answers, ∀ kv ∈ proj a, kv.2 ≠ none) →
      (answers.foldl (fun ac a => addMap ac (proj a)) acc).lookup k =
        combineStat (acc.lookup k) (traitValues k proj answers) := by
  induction answers with
  | nil =>
    intro acc k _ _
    simp [traitValues, combineStat_nil]
  | cons a rest ih =>
    intro acc k hnd hco
    rw [List.foldl_cons]
    have hnd1 := hnd a (List.mem_cons_self a rest)
    have hco1 := hco a (List.mem_cons_self a rest)
    have hstep := ih (addMap acc (proj a)) k
      (fun a2 h2 => hnd a2 (List.mem_cons_of_mem a h2))
      (fun a2 h2 => hco a2 (List.mem_cons_of_mem a h2))
    rw [hstep, lookup_addMap (proj a) acc k hnd1 hco1]
    simp only [traitValues, List.filterMap_cons]
    cases hl : (proj a).lookup k with
    | none => rfl
    | some jv =>
      cases jv with
      | none =>
        exact absurd rfl
          (hco1 (k, none) (mem_of_lookup (proj a) k none hl))
      | some v =>
        cases hacc : acc.lookup k with
        | none => rfl
        | some sc =>
          obtain ⟨s, c⟩ := sc
          rfl

theorem counts_pos_fold (proj : Answer → List (String × Option ℚ))
    (answers : List Answer) :
    ∀ acc, (∀ e ∈ acc, 0 < e.2.2) →
      ∀ e ∈ answers.foldl (fun ac a => addMap ac (proj a)) acc, 0 < e.2.2 := by
  induction answers with
  | nil =>
    intro acc h
    exact h
  | cons a rest ih =>
    intro acc h
    rw [List.foldl_cons]
    exact ih _ (counts_pos_addMap (proj a) acc h)

/-- The per-key content of one finalized trait map: the key's aggregate is
`round2` of the mean of its contributed values. -/
theorem statsResult (proj : Answer → List (String × Option ℚ))
    (answers : List Answer)
    (hnd : ∀ a ∈ answers, ((proj a).map Prod.fst).Nodup)
    (hco : ∀ a ∈ answers, ∀ kv ∈ proj a, kv.2 ≠ none)
    (k : String) (hk : ∃ a ∈ answers, ∃ kv ∈ proj a, kv.1 = k) :
    (finalizeStats
        (answers.foldl (fun ac a => addMap ac (proj a)) [])).lookup k =
      some (round2 ((traitValues k proj answers).sum /
        ((traitValues k proj answers).length : ℚ))) := by
  obtain ⟨a, ha, kv, hkv, hkk⟩ := hk
  have hkeys : k ∈ (proj a).map Prod.fst :=
    List.mem_map.mpr ⟨kv, hkv, hkk⟩
  obtain ⟨jv, hjv⟩ := lookup_isSome_of_mem_keys (proj a) k hkeys
  have hjvne : jv ≠ none := by
    intro h
    subst h
    exact hco a ha (k, none) (mem_of_lookup (proj a) k none hjv) rfl
  obtain ⟨v, rfl⟩ := Option.ne_none_iff_exists'.mp hjvne
  have hvmem : v ∈ traitValues k proj answers := by
    rw [traitValues]
    apply List.mem_filterMap.mpr
    exact ⟨a, ha, by rw [hjv]⟩
  have htvne : traitValues k proj answers ≠ [] := List.ne_nil_of_mem hvmem
  have hcounts : ∀ e ∈ answers.foldl (fun ac a => addMap ac (proj a))
      ([] : List (String × ℚ × Nat)), 0 < e.2.2 :=
    counts_pos_fold proj answers [] (by intro e he; cases he)
  rw [lookup_finalize _ k hcounts,
    lookup_statsFold proj answers [] k hnd hco,
    List.lookup_nil, combineStat_none _ htvne]
  rfl

/-- Claim C3: for each trait key appearing in some answer's positive map
(with per-map distinct keys and numeric values, as JSON objects of scores
are), `recalc_from_answers` aggregates the arithmetic mean of the key's
values over ONLY the answers containing the key, rounded to 2 decimals
(Python banker's rounding on the exact rational); independently the same for
negative maps.  Answers missing the key contribute neither to the sum nor the
count. -/
theorem C3_recalc_mean (answers : List Answer) (sa : SelfAnalysis)
    (hndp : ∀ a ∈ answers, (a.positive_values.map Prod.fst).Nodup)
    (hcop : ∀ a ∈ answers, ∀ kv ∈ a.positive_values, kv.2 ≠ none)
    (hndn : ∀ a ∈ answers, (a.negative_values.map Prod.fst).Nodup)
    (hcon : ∀ a ∈ answers, ∀ kv ∈ a.negative_values, kv.2 ≠ none) :
    (∀ k, (∃ a ∈ answers, ∃ kv ∈ a.positive_values, kv.1 = k) →
      ((recalc_from_answers answers sa).combined_positives).lookup k =
        some (round2
          ((traitValues k (fun a => a.positive_values) answers).sum /
            ((traitValues k (fun a => a.positive_values) answers).length
              : ℚ)))) ∧
    (∀ k, (∃ a ∈ answers, ∃ kv ∈ a.negative_values, kv.1 = k) →
      ((recalc_from_answers answers sa).combined_negatives).lookup k =
        some (round2
          ((traitValues k (fun a => a.negative_values) answers).sum /
            ((traitValues k (fun a => a.negative_values) answers).length
              : ℚ)))) := by
  constructor
  · intro k hk
    have hrw : (recalc_from_answers answers sa).combined_positives =
        finalizeStats
          (answers.foldl (fun ac a => addMap ac a.positive_values) []) := by
      simp only [recalc_from_answers]
      rw [foldl_recalcStep_fst]
    rw [hrw]
    exact statsResult _ answers hndp hcop k hk
  · intro k hk
    have hrw : (recalc_from_answers answers sa).combined_negatives =
        finalizeStats
          (answers.foldl (fun ac a => addMap ac a.negative_values) []) := by
      simp only [recalc_from_answers]
      rw [foldl_recalcStep_snd]
    rw [hrw]
    exact statsResult _ answers hndn hcon k hk

/-! C3 witness: trait "X" appears in 1 of 3 answers with value 80; the
aggregate for "X" is 80, not 80/3. -/

def c3a1 : Answer :=
  { question_id := 1, positive_values := [("X", some 80)] }

def c3a2 : Answer :=
  { question_id := 2 }

def c3a3 : Answer :=
  { question_id := 3 }

def c3Answers : List Answer :=
  [c3a1, c3a2, c3a3]

theorem C3_witness :
    ((recalc_from_answers c3Answers {}).combined_positives).lookup "X" =
      some 80 := by
  have h := (C3_recalc_mean c3Answers {}
      (by intro a ha; fin_cases ha <;> decide)
      (by intro a ha; fin_cases ha <;> decide)
      (by intro a ha; fin_cases ha <;> decide)
      (by intro a ha; fin_cases ha <;> decide)).1 "X"
      ⟨c3a1, by simp [c3Answers], ("X", some 80), by simp [c3a1], rfl⟩
  rw [h]
  have htv : traitValues "X" (fun a => a.positive_values) c3Answers = [80] :=
    rfl
  rw [htv]
  norm_num [round2, roundHalfToEven]

/-! ## Agents (self_analysis/agents.py) -/

/-- The whitespace Python's `str.strip` / `str.split` remove (ASCII range;
the answers handled here are plain text). -/
def isPyWs (c : Char) : Bool :=
  c == ' ' || c == '\t' || c == '\n' || c == '\r' || c == '\x0b' || c == '\x0c'

/-- Python `text.strip()`. -/
def pyStrip (l : List Char) : List Char :=
  ((l.dropWhile isPyWs).reverse.dropWhile isPyWs).reverse

/-- Python `text.lower()` (ASCII). -/
def pyLower (l : List Char) : List Char :=
  l.map Char.toLower

/-- Maximal non-whitespace runs, walking the text with an in-word flag:
the length of Python's `text.split()`. -/
def countRuns : List Char → Bool → Nat
  | [], _ => 0
  | c :: rest, inWord =>
    if isPyWs c then countRuns rest false
    else if inWord then countRuns rest true
    else countRuns rest true + 1

/-- `_word_count(text)`: `len([w for w in text.strip().split() if w])`
(`split()` never yields empty pieces, so this is the number of
whitespace-separated runs). -/
def _word_count (text : List Char) : Nat :=
  countRuns (pyStrip text) false

def MIN_TEXT_WORDS : Nat := 5

def MIN_TEXT_CHARS : Nat := 30

/-- `_passes_min_length(text)`. -/
def _passes_min_length (text : List Char) : Bool :=
  decide (MIN_TEXT_CHARS ≤ (pyStrip text).length) &&
    decide (MIN_TEXT_WORDS ≤ _word_count text)

def placeholderSet : List (List Char) :=
  ["n/a", "na", "none", "nothing", "yes", "no"].map String.toList

/-- `_looks_placeholder(text)`. -/
def _looks_placeholder (text : List Char) : Bool :=
  placeholderSet.any (fun s => pyLower (pyStrip text) == s) ||
    decide ((pyLower (pyStrip text)).length ≤ 2)

/-- Python's `needle in hay` on strings (substring containment). -/
def containsSub (needle : List Char) : List Char → Bool
  | [] => needle.isEmpty
  | c :: rest => needle.isPrefixOf (c :: rest) || containsSub needle rest

def monthWords : List (List Char) :=
  ["january", "february", "march", "april", "may", "june",
   "july", "august", "september", "october", "november", "december",
   "jan", "feb", "mar", "apr", "jun", "jul", "aug", "sep", "sept", "oct",
   "nov", "dec"].map String.toList

def relPhrases : List (List Char) :=
  ["last year", "this year", "last month", "this month", "yesterday",
   "last week", "recently"].map String.toList

/-- A regex word character, for the `\b` boundaries in
`\b(19|20)\d{2}\b`. -/
def wordChar (c : Char) : Bool :=
  c.isAlphanum || c == '_'

/-- Does `\b(19|20)\d{2}\b` match at the current position (`prev` is the
character before it, if any)? -/
def yearHere (prev : Option Char) : List Char → Bool
  | a :: b :: c :: d :: rest =>
    ((a == '1' && b == '9') || (a == '2' && b == '0')) && c.isDigit &&
      d.isDigit &&
      (match prev with
       | some p => !wordChar p
       | none => true) &&
      (match rest with
       | e :: _ => !wordChar e
       | [] => true)
  | _ => false

/-- `re.search` of the year pattern: try every position. -/
def hasYearMatch : Option Char → List Char → Bool
  | _, [] => false
  | prev, c :: rest => yearHere prev (c :: rest) || hasYearMatch (some c) rest

/-- `_contains_time_reference(text)`: month word, 4-digit year 19xx/20xx, or
relative phrase. -/
def _contains_time_reference (text : List Char) : Bool :=
  monthWords.any (fun m => containsSub m (pyLower text)) ||
    hasYearMatch none (pyLower text) ||
    relPhrases.any (fun p => containsSub p (pyLower text))

/-- `_question_demands_time(q_payload)`:
`"when did it take place" in qp or qp.startswith("[type=text") and " when " in qp`
(Python precedence: `A or (B and C)`). -/
def _question_demands_time (q_payload : List Char) : Bool :=
  containsSub ("when did it take place".toList) (pyLower q_payload) ||
    (("[type=text".toList).isPrefixOf (pyLower q_payload) &&
      containsSub (" when ".toList) (pyLower q_payload))

def qtypeStr : QuestionType → List Char
  | .text => "text".toList
  | .mcq => "mcq".toList
  | .checkbox => "checkbox".toList

def pyBoolStr : Bool → List Char
  | true => "True".toList
  | false => "False".toList

def pyOptStr : Option String → List Char
  | none => "None".toList
  | some s => s.toList

/-- `_question_payload(q)`:
`f"[type={q_type}; required={bool(q_required)}; category={q_category}] {q_text}"`. -/
def _question_payload (q : Question) : List Char :=
  "[type=".toList ++ qtypeStr q.qtype ++ "; required=".toList ++
    pyBoolStr q.required ++ "; category=".toList ++ pyOptStr q.category ++
    "] ".toList ++ q.qtext

/-- `_format_answer_for_llm` on a TEXT answer: both the raw-string branch and
the `{"text": ...}` branch strip the text. -/
def _format_answer_for_llm (answer_text : List Char) : List Char :=
  pyStrip answer_text

/-- The `instrcutions` strings a submission can be rejected with: the four
distinct constant strings of the local pre-checks in `validate_with_agent`,
plus free-form instruction text produced by the external text-assessment
capability (abstracted by an index). -/
inductive Instr
  | min_length
  | placeholder
  | time_reference
  | no_links
  | from_capability (n : Nat)
deriving DecidableEq

/-- The observable outcome of `validate_with_agent` before any network call:
non-TEXT questions are auto-approved, a failed local pre-check rejects with
its instruction and never invokes the external capability, and only
`delegated` reaches the external text-assessment capability. -/
inductive LocalValidation
  | auto_ok
  | rejected (i : Instr)
  | delegated
deriving DecidableEq

/-- `validate_with_agent(question, answer)`: the `_is_text_question` gate and
the four local pre-checks, in source order with short-circuit.  The
`_ensure_openai_key()` call that precedes the pre-checks is assumed to
succeed (the API key is deployment configuration; were it missing, the view's
outer `except` would fail open and accept). -/
def validate_with_agent (q : Question) (answer_text : List Char) :
    LocalValidation :=
  if q.qtype ≠ .text then .auto_ok
  else
    if !_passes_min_length (_format_answer_for_llm answer_text) then
      .rejected .min_length
    else if _looks_placeholder (_format_answer_for_llm answer_text) then
      .rejected .placeholder
    else if _question_demands_time (_question_payload q) &&
        !_contains_time_reference (_format_answer_for_llm answer_text) then
      .rejected .time_reference
    else if containsSub ("http://".toList)
          (pyLower (_format_answer_for_llm answer_text)) ||
        containsSub ("https://".toList)
          (pyLower (_format_answer_for_llm answer_text)) then
      .rejected .no_links
    else .delegated

/-- `_clamp_0_100(val)`: `int(round(float(val)))` with exceptions coercing to
`0`, clamped into `[0, 100]`. -/
def _clamp_0_100 (val : Option ℚ) : ℤ :=
  match val with
  | none => 0
  | some q => max 0 (min 100 (roundHalfToEven q))

/-- What the external trait-scoring capability hands back (after the
normalization of the pydantic/dict branches): two string-keyed JSON maps and
a quote. -/
structure CapTraits where
  positive : List (String × Option ℚ) := []
  negative : List (String × Option ℚ) := []
  quote : List Char := []
deriving DecidableEq

/-- The scorer's post-processed output: integer scores, clamped quote. -/
structure ScoredTraits where
  positive : List (String × ℤ) := []
  negative : List (String × ℤ) := []
  quote : List Char := []
deriving DecidableEq

/-- `analyze_with_agent(question, answer)`: non-TEXT questions return the
empty analysis without any external call; for TEXT, the capability's output
is post-processed — every score through `_clamp_0_100`, the quote truncated
to 140 characters and stripped (`data["quote"][:140].strip()`). -/
def analyze_with_agent (q : Question) (content : CapTraits) : ScoredTraits :=
  if q.qtype ≠ .text then {}
  else
    { positive := content.positive.map fun kv => (kv.1, _clamp_0_100 kv.2)
      negative := content.negative.map fun kv => (kv.1, _clamp_0_100 kv.2)
      quote := pyStrip (content.quote.take 140) }

/-! ## Lemmas about `pyStrip` -/

theorem head?_dropWhile_false (p : α → Bool) (l : List α) (c : α)
    (h : (l.dropWhile p).head? = some c) : p c = false := by
  have := List.head?_dropWhile_not p l
  rw [h] at this
  exact this

theorem dropWhile_eq_self_of_head (p : α → Bool) (l : List α)
    (h : ∀ c, l.head? = some c → p c = false) : l.dropWhile p = l := by
  cases l with
  | nil => rfl
  | cons c rest =>
    rw [List.dropWhile_cons]
    simp [h c rfl]

theorem getLast?_dropWhile (p : α → Bool) (m : List α)
    (h : m.dropWhile p ≠ []) : (m.dropWhile p).getLast? = m.getLast? := by
  induction m with
  | nil => exact absurd rfl h
  | cons c rest ih =>
    by_cases hc : p c = true
    · rw [List.dropWhile_cons, if_pos hc] at h ⊢
      rw [ih h]
      have hrest : rest ≠ [] := by
        intro hr
        rw [hr] at h
        exact h rfl
      have hgl := List.getLast?_eq_getLast rest hrest
      rw [List.getLast?_cons, hgl]
      rfl
    · rw [List.dropWhile_cons, if_neg hc]

theorem pyStrip_length_le (l : List Char) : (pyStrip l).length ≤ l.length := by
  rw [pyStrip]
  calc ((l.dropWhile isPyWs).reverse.dropWhile isPyWs).reverse.length
      = ((l.dropWhile isPyWs).reverse.dropWhile isPyWs).length :=
        List.length_reverse _
    _ ≤ (l.dropWhile isPyWs).reverse.length :=
        (List.dropWhile_sublist _).length_le
    _ = (l.dropWhile isPyWs).length := List.length_reverse _
    _ ≤ l.length := (List.dropWhile_sublist _).length_le

theorem pyStrip_idem (l : List Char) : pyStrip (pyStrip l) = pyStrip l := by
  have h1 : ((((l.dropWhile isPyWs).reverse.dropWhile isPyWs).reverse)
      |>.dropWhile isPyWs) =
      ((l.dropWhile isPyWs).reverse.dropWhile isPyWs).reverse := by
    apply dropWhile_eq_self_of_head
    intro c hc
    rw [List.head?_reverse] at hc
    have hBne : (l.dropWhile isPyWs).reverse.dropWhile isPyWs ≠ [] := by
      intro hnil
      rw [hnil] at hc
      cases hc
    rw [getLast?_dropWhile isPyWs (l.dropWhile isPyWs).reverse hBne,
      List.getLast?_reverse] at hc
    exact head?_dropWhile_false isPyWs l c hc
  have h2 : ((l.dropWhile isPyWs).reverse.dropWhile isPyWs).dropWhile isPyWs =
      (l.dropWhile isPyWs).reverse.dropWhile isPyWs := by
    apply dropWhile_eq_self_of_head
    intro c hc
    exact head?_dropWhile_false isPyWs (l.dropWhile isPyWs).reverse c hc
  show ((pyStrip l |>.dropWhile isPyWs).reverse.dropWhile isPyWs).reverse =
    pyStrip l
  rw [pyStrip, h1, List.reverse_reverse, h2]

/-! ## Claim C4: scorer output clamping -/

theorem roundHalfToEven_ge_floor (x : ℚ) : ⌊x⌋ ≤ roundHalfToEven x := by
  rw [roundHalfToEven]
  split_ifs <;> omega

theorem roundHalfToEven_le_floor_add_one (x : ℚ) :
    roundHalfToEven x ≤ ⌊x⌋ + 1 := by
  rw [roundHalfToEven]
  split_ifs <;> omega

/-- Claim C4: whatever the external trait-scoring capability returns, the
scorer's output maps hold only integers in `[0, 100]` (non-numeric values
coerce to `0`, out-of-range values clamp to `0` or `100`), and the output
quote is stripped and at most 140 characters long. -/
theorem C4_scorer_clamped (q : Question) (content : CapTraits) :
    (∀ kv ∈ (analyze_with_agent q content).positive,
      0 ≤ kv.2 ∧ kv.2 ≤ 100) ∧
    (∀ kv ∈ (analyze_with_agent q content).negative,
      0 ≤ kv.2 ∧ kv.2 ≤ 100) ∧
    (analyze_with_agent q content).quote.length ≤ 140 ∧
    pyStrip (analyze_with_agent q content).quote =
      (analyze_with_agent q content).quote ∧
    _clamp_0_100 none = 0 ∧
    (∀ x : ℚ, 100 < x → _clamp_0_100 (some x) = 100) ∧
    (∀ x : ℚ, x < 0 → _clamp_0_100 (some x) = 0) := by
  have hclamp : ∀ v, 0 ≤ _clamp_0_100 v ∧ _clamp_0_100 v ≤ 100 := by
    intro v
    cases v with
    | none => constructor <;> norm_num [_clamp_0_100]
    | some x =>
      rw [_clamp_0_100]
      constructor
      · exact le_max_left 0 _
      · exact max_le (by norm_num) (min_le_left 100 _)
  refine ⟨?_, ?_, ?_, ?_, rfl, ?_, ?_⟩
  · intro kv hkv
    rw [analyze_with_agent] at hkv
    by_cases ht : q.qtype ≠ QuestionType.text
    · rw [if_pos ht] at hkv
      cases hkv
    · rw [if_neg ht] at hkv
      obtain ⟨kv0, _, hkveq⟩ := List.mem_map.mp hkv
      rw [← hkveq]
      exact hclamp kv0.2
  · intro kv hkv
    rw [analyze_with_agent] at hkv
    by_cases ht : q.qtype ≠ QuestionType.text
    · rw [if_pos ht] at hkv
      cases hkv
    · rw [if_neg ht] at hkv
      obtain ⟨kv0, _, hkveq⟩ := List.mem_map.mp hkv
      rw [← hkveq]
      exact hclamp kv0.2
  · rw [analyze_with_agent]
    by_cases ht : q.qtype ≠ QuestionType.text
    · rw [if_pos ht]
      norm_num
    · rw [if_neg ht]
      calc (pyStrip (content.quote.take 140)).length
          ≤ (content.quote.take 140).length := pyStrip_length_le _
        _ ≤ 140 := by
            rw [List.length_take]
            omega
  · rw [analyze_with_agent]
    by_cases ht : q.qtype ≠ QuestionType.text
    · rw [if_pos ht]
      rfl
    · rw [if_neg ht]
      exact pyStrip_idem _
  · intro x hx
    rw [_clamp_0_100]
    have h1 : (100 : ℤ) ≤ ⌊x⌋ := by
      rw [Int.le_floor]
      push_cast
      exact le_of_lt hx
    have h2 := roundHalfToEven_ge_floor x
    omega
  · intro x hx
    rw [_clamp_0_100]
    have h1 : ⌊x⌋ < 0 := by
      rw [Int.floor_lt]
      push_cast
      exact hx
    have h2 := roundHalfToEven_le_floor_add_one x
    omega

def c4Question : Question :=
  { id := 4, qtype := .text }

def c4Content : CapTraits :=
  { positive := [("Confidence", some 150)]
    negative := [("Anxiety", none)]
    quote := ' ' :: ' ' :: List.replicate 200 'x' }

theorem C4_witness :
    (0 ≤ _clamp_0_100 (some 150) ∧ _clamp_0_100 (some 150) ≤ 100) ∧
    _clamp_0_100 (some 150) = 100 ∧
    _clamp_0_100 none = 0 ∧
    (analyze_with_agent c4Question c4Content).quote.length ≤ 140 := by
  have T := C4_scorer_clamped c4Question c4Content
  refine ⟨?_, ?_, T.2.2.2.2.1, T.2.2.1⟩
  · exact T.1 ("Confidence", _clamp_0_100 (some 150))
      (by simp [analyze_with_agent, c4Question, c4Content])
  · exact T.2.2.2.2.2.1 150 (by norm_num)

/-! ## Claim C7: "no" and the pre-check order -/

def c7Question : Question :=
  { id := 7, qtext := "Tell me about a challenge you overcame".toList,
    qtype := .text }

/-- Claim C7 as stated is FALSE on the code: for a TEXT question, the answer
"no" IS rejected locally without invoking the external capability, but the
check that fires is the FIRST pre-check, minimum length ("no" has 1 word and
2 characters), not the placeholder check: the pre-checks short-circuit in the
order length, placeholder, time-reference, URL, so the caller receives the
minimum-length instruction. -/
theorem C7_counterexample :
    validate_with_agent c7Question ("no".toList) =
      LocalValidation.rejected Instr.min_length ∧
    Instr.min_length ≠ Instr.placeholder := by
  decide

/-- Claim C7 (amended): for a TEXT question, the answer "no" is rejected by
the local pre-checks with the external capability not invoked; the
minimum-length check — which runs first in the order (length, placeholder,
time-reference, URL) with short-circuit on first failure — produces the
rejection, even though "no" also matches the placeholder predicate. -/
theorem C7_no_rejected_by_min_length :
    validate_with_agent c7Question ("no".toList) =
      LocalValidation.rejected Instr.min_length ∧
    _looks_placeholder ("no".toList) = true ∧
    _passes_min_length ("no".toList) = false ∧
    validate_with_agent c7Question ("no".toList) ≠
      LocalValidation.delegated := by
  decide

/-! ## Submission pipeline (self_analysis/views.py, `answer_and_next`) -/

/-- Outcome of the external text-assessment call (only reached when the local
pre-checks pass): a structured result, or an exception. -/
inductive ExternalValidation
  | result (is_answer_ok : Bool) (instr : Option Instr)
  | raised
deriving DecidableEq

/-- Outcome of the external trait-scoring call: a structured result, or an
exception (the view's inner `try` falls back to an empty analysis). -/
inductive ExternalAnalysis
  | result (content : CapTraits)
  | raised
deriving DecidableEq

/-- What the view returns: HTTP 400 with the agent's correction instructions,
or HTTP 200 with the saved answer, next question, completion flag and
progress. -/
inductive PipelineResponse
  | bad_request (instr : Option Instr)
  | accepted (saved : Answer) (next_q : Option Question) (complete : Bool)
      (progress : OverallProgress)
deriving DecidableEq

/-- The persisted rows the view touches for one user: the user's answers and
the `SelfAnalysis` aggregate. -/
structure PipelineState where
  answers : List Answer := []
  self_analysis : SelfAnalysis := {}
deriving DecidableEq

/-- `Answer.objects.update_or_create(user=..., question=..., defaults=...)`:
overwrite the row keyed by this question, or create it. -/
def upsertAnswer (answers : List Answer) (qid : Nat) (now : Nat)
    (answer_text : List Char) (pos neg : List (String × Option ℚ))
    (quote : List Char) : List Answer × Answer :=
  match answers.find? (fun a => a.question_id == qid) with
  | some old =>
    let updated : Answer :=
      { old with
        answer_text := answer_text
        positive_values := pos
        negative_values := neg
        quote := quote }
    (answers.map fun a => if a.question_id == qid then updated else a,
      updated)
  | none =>
    let created : Answer :=
      { question_id := qid
        answer_text := answer_text
        positive_values := pos
        negative_values := neg
        quote := quote
        created_at := now }
    (created :: answers, created)

/-- `AnswerViewSet.answer_and_next`.  `default_pos`/`default_neg`/
`default_quote` are the serializer-validated trait fields
(`data.setdefault(...)`: empty unless the client supplied them) used verbatim
for non-TEXT questions and when the validation agent raises (the fail-open
branch).  `vo`/`ao` are the outcomes of the two external calls; integer
scores are stored as JSON numbers. -/
def answer_and_next (st : PipelineState) (catalog : List Question)
    (q : Question) (answer_text : List Char) (now : Nat)
    (default_pos default_neg : List (String × Option ℚ))
    (default_quote : List Char)
    (vo : ExternalValidation) (ao : ExternalAnalysis) :
    PipelineState × PipelineResponse :=
  let persist := fun (pos neg : List (String × Option ℚ))
      (quote : List Char) =>
    let res := upsertAnswer st.answers q.id now answer_text pos neg quote
    let sa2 := recalc_for_user res.1 st.self_analysis
    let next_q := next_question_for_user catalog
      (res.1.map fun a => a.question_id)
    let prog := _overall_progress catalog (res.1.map fun a => a.question_id)
    ((⟨res.1, sa2⟩ : PipelineState),
      PipelineResponse.accepted res.2 next_q next_q.isNone prog)
  let fromAnalysis := fun (_u : Unit) =>
    match ao with
    | .raised => persist [] [] []
    | .result content =>
      let scored := analyze_with_agent q content
      persist (scored.positive.map fun kv => (kv.1, some (kv.2 : ℚ)))
        (scored.negative.map fun kv => (kv.1, some (kv.2 : ℚ)))
        (pyStrip scored.quote)
  if q.qtype == QuestionType.text then
    match validate_with_agent q answer_text, vo with
    | .rejected i, _ => (st, .bad_request (some i))
    | .delegated, .result false instr => (st, .bad_request instr)
    | .delegated, .result true _ => fromAnalysis ()
    | .delegated, .raised => persist default_pos default_neg default_quote
    | .auto_ok, _ => fromAnalysis ()
  else
    persist default_pos default_neg default_quote

/-- Claim C8: when a TEXT submission is rejected for completeness (a local
pre-check fires, or the external capability answers not-ok), the pipeline
persists nothing — the stored answers and the `SelfAnalysis` aggregate are
exactly as before — and the caller receives only the 400 response carrying
the correction instructions. -/
theorem C8_rejected_text_persists_nothing
    (st : PipelineState) (catalog : List Question) (q : Question)
    (answer_text : List Char) (now : Nat)
    (dpos dneg : List (String × Option ℚ)) (dquote : List Char)
    (vo : ExternalValidation) (ao : ExternalAnalysis)
    (htext : q.qtype = QuestionType.text)
    (hrej : (∃ i, validate_with_agent q answer_text =
        LocalValidation.rejected i) ∨
      (validate_with_agent q answer_text = LocalValidation.delegated ∧
        ∃ instr, vo = ExternalValidation.result false instr)) :
    (answer_and_next st catalog q answer_text now dpos dneg dquote
      vo ao).1 = st ∧
    ∃ ins, (answer_and_next st catalog q answer_text now dpos dneg dquote
      vo ao).2 = PipelineResponse.bad_request ins := by
  have hit : (q.qtype == QuestionType.text) = true := by
    rw [htext]
    rfl
  rcases hrej with ⟨i, hi⟩ | ⟨hd, instr, hvo⟩
  · constructor
    · simp [answer_and_next, hit, hi]
    · exact ⟨some i, by simp [answer_and_next, hit, hi]⟩
  · subst hvo
    constructor
    · simp [answer_and_next, hit, hd]
    · exact ⟨instr, by simp [answer_and_next, hit, hd]⟩

def c8State : PipelineState :=
  { answers := [quoteOlder], self_analysis := { quote := "A".toList } }

theorem C8_witness :
    (answer_and_next c8State wfCatalog c7Question ("no".toList) 5 [] [] []
      ExternalValidation.raised ExternalAnalysis.raised).1 = c8State ∧
    c7Question.qtype = QuestionType.text :=
  ⟨(C8_rejected_text_persists_nothing c8State wfCatalog c7Question
      ("no".toList) 5 [] [] [] ExternalValidation.raised
      ExternalAnalysis.raised rfl
      (Or.inl ⟨Instr.min_length, by decide⟩)).1, rfl⟩
